import Mathlib

/-!
Shallow embedding of `src/packages/ensjs/src/getProfile.ts`.

Modelling conventions:
- JS hex strings produced by the ABI coder are modelled by their byte content
  (`Bytes := List Nat`) together with an explicit lowercase hex rendering
  (`hexOf : Bytes → List Char`) where the string form matters.
- JS strings on which character operations are performed (the queried address,
  the orchestrator input) are modelled as `List Char` (`JStr`).
- The union-typed option fields (`boolean | string | string[] | undefined | null`)
  are modelled by `JSVal`.
- External capabilities (the ABI-decoded multicall response, the reverse call's
  result, the graph client's response, the coin-format table
  `formatsByCoinType`, `ENS.getName`) are oracle parameters: the functions here
  embed the code's own logic applied to whatever those capabilities returned.
- A thrown JS runtime error (reading a property of `undefined`, ABI-decoding
  `undefined`, destructuring an empty array) is modelled as
  `Except.error JSError.typeError`.
-/

/-- Byte strings: each entry is one byte value. -/
abbrev Bytes := List Nat

/-- JS strings viewed as character lists (used where case or `includes` matter). -/
abbrev JStr := List Char

/-- A JS value of union type `undefined | null | boolean | α`. -/
inductive JSVal (α : Type) where
  | undef
  | nullv
  | boolv (b : Bool)
  | val (a : α)
deriving DecidableEq

/-- JS truthiness of a `JSVal` (arrays and nonempty payloads are truthy;
`undefined`, `null` and `false` are falsy). -/
def jsvTruthy {α : Type} : JSVal α → Bool
  | .undef => false
  | .nullv => false
  | .boolv b => b
  | .val _ => true

/-- The options record threaded through the resolvers
(`InternalProfileOptions` / `ProfileOptions` in the source; JS is untyped
so one shape covers both: `contentHash?: boolean | string`,
`texts?: boolean | string[]`, `coinTypes?: boolean | string[]`).
A string-valued `contentHash` literal is carried as its byte content. -/
structure RecOptions where
  contentHash : JSVal Bytes := .undef
  texts : JSVal (List String) := .undef
  coinTypes : JSVal (List String) := .undef
deriving DecidableEq

/-- The `type` tag of a call descriptor (`'text' | 'addr' | 'contenthash'`). -/
inductive CallType where
  | text
  | addr
  | contenthash
deriving DecidableEq

/-- One call descriptor pushed into `calls` (the opaque `data` payload,
an ABI encoding produced by the external coder, is not modelled). -/
structure CallItem where
  key : String
  type : CallType
deriving DecidableEq

/-- A modelled JS runtime failure (e.g. property access on `undefined`,
ABI decode of `undefined`, destructuring an empty array). -/
inductive JSError where
  | typeError
deriving DecidableEq

/-- One slot of an ABI-decoded batched response, modelled by its image under
the two decoders the code applies: `decode(['bytes'], item)[0]` gives `bytes`,
`decode(['string'], item)[0]` gives `str`. -/
structure RespItem where
  bytes : Bytes := []
  str : String := ""
deriving DecidableEq

/-- An entry of the `formatsByCoinType` table: canonical coin name plus the
codec turning raw address bytes into a display string. -/
structure CoinFormat where
  name : String
  encoder : Bytes → String

/-- A decoded record value: a JS string, or a hex string carried as bytes. -/
inductive RecordValue where
  | str (s : String)
  | bytes (b : Bytes)
deriving DecidableEq

/-- A formatted record (`DataItem` in the source). -/
structure DataItem where
  key : String
  type : CallType
  coin : Option String := none
  value : RecordValue
deriving DecidableEq

/-- The `records` object returned by `formatRecords`: each bucket is absent
(outer `none`) when the corresponding option was not requested; the
`contentHash` bucket additionally distinguishes `null` (inner `none`). -/
structure FormattedResponse where
  contentHash : Option (Option RecordValue) := none
  texts : Option (List DataItem) := none
  coinTypes : Option (List DataItem) := none
deriving DecidableEq

deriving instance DecidableEq for Except

/-- JS truthiness of an array value: every array is truthy, even `[]`.
This models the source's `calls.filter((x) => x.key === '60')` appearing
bare in a boolean position. -/
def jsArrayTruthy {α : Type} (_ : List α) : Bool := true

/-- `getDataForName`, lines 58-75: build the forward call list from the
options. Iterating `forEach` over a `true` literal would throw in JS, hence
the `Except`. The final guard is the source's
`if (!calls.filter((x) => x.key === '60'))` verbatim: a negated truthiness
test on the filtered array. -/
def buildCallsForName (o : RecOptions) : Except JSError (List CallItem) := do
  let textCalls : List CallItem ←
    match o.texts with
    | .val ts => pure (ts.map fun k => ⟨k, .text⟩)
    | .boolv true => Except.error .typeError
    | _ => pure []
  let coinCalls : List CallItem ←
    match o.coinTypes with
    | .val cs => pure (cs.map fun k => ⟨k, .addr⟩)
    | .boolv true => Except.error .typeError
    | _ => pure []
  let chCalls : List CallItem :=
    match o.contentHash with
    | .boolv true => [⟨"contentHash", .contenthash⟩]
    | _ => []
  let calls := textCalls ++ coinCalls ++ chCalls
  let calls :=
    if !(jsArrayTruthy (calls.filter fun x => x.key == "60")) then
      calls ++ [⟨"60", .addr⟩]
    else
      calls
  pure calls

/-- `getDataForAddress`, lines 137-155: build the reverse call list from the
options (same key/type logic; the per-call `makeResolverData` payload is
opaque and not modelled). -/
def buildCallsForAddress (o : RecOptions) : Except JSError (List CallItem) := do
  let textCalls : List CallItem ←
    match o.texts with
    | .val ts => pure (ts.map fun k => ⟨k, .text⟩)
    | .boolv true => Except.error .typeError
    | _ => pure []
  let coinCalls : List CallItem ←
    match o.coinTypes with
    | .val cs => pure (cs.map fun k => ⟨k, .addr⟩)
    | .boolv true => Except.error .typeError
    | _ => pure []
  let chCalls : List CallItem :=
    match o.contentHash with
    | .boolv true => [⟨"contentHash", .contenthash⟩]
    | _ => []
  let calls := textCalls ++ coinCalls ++ chCalls
  let calls :=
    if !(jsArrayTruthy (calls.filter fun x => x.key == "60")) then
      calls ++ [⟨"60", .addr⟩]
    else
      calls
  pure calls

/-- Hex digit characters, lowercase, as `ethers` renders decoded bytes. -/
def nibbleChar (n : Nat) : Char :=
  match n with
  | 0 => '0' | 1 => '1' | 2 => '2' | 3 => '3'
  | 4 => '4' | 5 => '5' | 6 => '6' | 7 => '7'
  | 8 => '8' | 9 => '9' | 10 => 'a' | 11 => 'b'
  | 12 => 'c' | 13 => 'd' | 14 => 'e' | _ => 'f'

/-- Two lowercase hex characters of one byte. -/
def byteHex (b : Nat) : List Char :=
  [nibbleChar (b / 16 % 16), nibbleChar (b % 16)]

/-- The hex string `ethers` produces for a decoded `bytes` value:
`0x` followed by two lowercase hex digits per byte. -/
def hexOf (bs : Bytes) : JStr :=
  '0' :: 'x' :: bs.flatMap byteHex

/-- `String.prototype.toLowerCase` on the ASCII strings handled here. -/
def jsToLower (s : JStr) : JStr := s.map Char.toLower

/-- `ethers.utils.hexStripZeros(v) === '0x'` holds exactly when every byte of
`v` is zero (including the empty byte string). -/
def hexStripZerosIsEmpty (bs : Bytes) : Bool := bs.all fun b => b == 0

/-- `formatRecords`, lines 180-219: processing of one response slot against
its call descriptor, returning `none` where the source returns `null`
(the all-zero addr/contenthash guard, the empty-text guard, and the
missing-coin-codec drop). -/
def procItem (formats : String → Option CoinFormat) (c : CallItem)
    (item : RespItem) : Option DataItem :=
  if (c.type == CallType.addr || c.type == CallType.contenthash)
      && hexStripZerosIsEmpty item.bytes then
    none
  else
    match c.type with
    | .text =>
      if item.str == "" then none
      else some ⟨c.key, .text, none, .str item.str⟩
    | .addr =>
      match formats c.key with
      | some f => some ⟨c.key, .addr, some f.name, .str (f.encoder item.bytes)⟩
      | none => none
    | .contenthash => some ⟨c.key, .contenthash, none, .bytes item.bytes⟩

/-- `formatRecords`, lines 179-223: `data.map((item, i) => ...)` reading
`calls[i]` at each position, followed by the two null-removing filters
(`typeof x === 'object'` keeps both objects and `null`; the second filter
removes the `null`s). A response longer than the call list makes the JS
callback read `.key` of `undefined`, a thrown `TypeError`. -/
def recordsAux (formats : String → Option CoinFormat) :
    List RespItem → List CallItem → Except JSError (List DataItem)
  | [], _ => .ok []
  | _ :: _, [] => .error .typeError
  | item :: ds, c :: cs => do
    let rest ← recordsAux formats ds cs
    match procItem formats c item with
    | some r => pure (r :: rest)
    | none => pure rest

/-- `formatRecords`, lines 174-254: per-item processing then bucket assembly.
The `contentHash` bucket follows the source's three-way branch on
`options.contentHash` (string literal, truthy boolean, absent); the `texts`
and `coinTypes` buckets are populated exactly when the corresponding option
is truthy. -/
def formatRecords (formats : String → Option CoinFormat)
    (data : List RespItem) (calls : List CallItem) (o : RecOptions) :
    Except JSError FormattedResponse := do
  let returnedRecords ← recordsAux formats data calls
  let chBucket : Option (Option RecordValue) :=
    match o.contentHash with
    | .val s =>
      if hexStripZerosIsEmpty s then some none else some (some (.bytes s))
    | .boolv true =>
      some ((returnedRecords.find? fun r => r.type == CallType.contenthash).map
        fun r => r.value)
    | _ => none
  let textsBucket : Option (List DataItem) :=
    if jsvTruthy o.texts then
      some (returnedRecords.filter fun r => r.type == CallType.text)
    else none
  let coinsBucket : Option (List DataItem) :=
    if jsvTruthy o.coinTypes then
      some (returnedRecords.filter fun r => r.type == CallType.addr)
    else none
  pure ⟨chBucket, textsBucket, coinsBucket⟩

/-- Result of `getDataForName`: the decoded primary address and the records. -/
structure NameData where
  address : Bytes
  records : FormattedResponse
deriving DecidableEq

/-- `getDataForName`, lines 25-95, after the external multicall: `recordData`
is the ABI-decoded response sequence. The returned object decodes
`recordData[calls.findIndex((x) => x.key === '60')]` as the address —
`findIndex` returning `-1`, or an index beyond the response, indexes
`undefined` and the ABI decode throws — then runs `formatRecords`. -/
def getDataForName (formats : String → Option CoinFormat) (o : RecOptions)
    (recordData : List RespItem) : Except JSError NameData := do
  let calls ← buildCallsForName o
  match calls.findIdx? fun x => x.key == "60" with
  | none => .error .typeError
  | some i =>
    match recordData.get? i with
    | none => .error .typeError
    | some item => do
      let fr ← formatRecords formats recordData calls o
      pure ⟨item.bytes, fr⟩

/-- Result of `getDataForAddress`: resolved name, records (`none` = `null`),
and the round-trip `match` flag. -/
structure AddrData where
  name : JStr
  records : Option FormattedResponse
  matched : Bool
deriving DecidableEq

/-- `getDataForAddress`, lines 97-172, after the external `reverse` call:
`revName` and `revData` are the name and aligned responses it returned.
The coin-type-60 slot is decoded and compared against
`address.toLowerCase()`; on mismatch the formatter is skipped and
`records` is `null`. -/
def getDataForAddress (formats : String → Option CoinFormat) (address : JStr)
    (revName : JStr) (o : RecOptions) (revData : List RespItem) :
    Except JSError AddrData := do
  let calls ← buildCallsForAddress o
  match calls.findIdx? fun x => x.key == "60" with
  | none => .error .typeError
  | some i =>
    match revData.get? i with
    | none => .error .typeError
    | some item =>
      if hexOf item.bytes ≠ jsToLower address then
        pure ⟨revName, none, false⟩
      else do
        let fr ← formatRecords formats revData calls o
        pure ⟨revName, some fr, true⟩

/-- The resolver object of one domain entry in the graph response
(`texts`, `coinTypes` are key lists; `contentHash` is a string or `null`,
carried as bytes). -/
structure ResolverResponse where
  contentHash : Option Bytes := none
  texts : List String := []
  coinTypes : List String := []
deriving DecidableEq

/-- `graphFetch`, lines 282-287, per list-valued field: a boolean `true` is
overwritten in place with the index response's value; every other value is
left unchanged. -/
def graphField (w : JSVal (List String)) (r : List String) :
    JSVal (List String) :=
  match w with
  | .boolv true => .val r
  | x => x

/-- `graphFetch`, lines 256-290: the query result is destructured as
`domains: [{ resolver }]` — an empty `domains` list makes the destructuring
throw — then each boolean-`true` field of `wantedRecords` is overwritten
with the resolver response's field of the same key. -/
def graphFetch (wanted : RecOptions) (domains : List ResolverResponse) :
    Except JSError RecOptions :=
  match domains with
  | [] => .error .typeError
  | resp :: _ =>
    .ok ⟨(match wanted.contentHash with
          | .boolv true =>
            (match resp.contentHash with
             | some s => .val s
             | none => .nullv)
          | x => x),
         graphField wanted.texts resp.texts,
         graphField wanted.coinTypes resp.coinTypes⟩

/-- The condition (lines 303-307 and 331-335) selecting the index-shortcut
branch: no options, or `texts === true`, or `coinTypes === true`. -/
def shortcutCond : Option RecOptions → Bool
  | none => true
  | some x =>
    decide (x.texts = JSVal.boolv true)
      || decide (x.coinTypes = JSVal.boolv true)

/-- The default `{ contentHash: true, texts: true, coinTypes: true }` used
when no options are supplied (`options || {...}`). -/
def fullDefault : RecOptions := ⟨.boolv true, .boolv true, .boolv true⟩

/-- `getProfileFromName`, lines 326-346: shortcut branch runs `graphFetch`
then `getDataForName` on the concretized options; otherwise `getDataForName`
runs directly on the supplied options. `domains` is the graph oracle and
`chain` the decoded multicall response oracle. -/
def getProfileFromName (formats : String → Option CoinFormat)
    (o : Option RecOptions) (domains : List ResolverResponse)
    (chain : List RespItem) : Except JSError NameData :=
  if shortcutCond o then do
    let wanted ← graphFetch (o.getD fullDefault) domains
    let r ← getDataForName formats wanted chain
    pure ⟨r.address, r.records⟩
  else
    getDataForName formats (o.getD fullDefault) chain

/-- The value of `ENS.getName(address)` (an external capability). -/
structure NameLookup where
  name : JStr := []
  matched : Bool := false
deriving DecidableEq

/-- The `name` field of a profile result: the source returns the whole
`getName` object on the early-exit path (line 309) and the plain name string
elsewhere. -/
inductive NameField where
  | obj (l : NameLookup)
  | strv (s : JStr)
deriving DecidableEq

/-- Result shape of `getProfileFromAddress`. -/
structure AddrProfile where
  name : NameField
  records : Option FormattedResponse
  matched : Bool
deriving DecidableEq

/-- `getProfileFromAddress`, lines 298-324: on the shortcut branch, first
resolve the address's name (`lookup` oracle); if no name is bound return
`{ name, records: null, match: false }` immediately; otherwise run the graph
shortcut and the forward resolver. On the narrow-options branch run
`getDataForAddress` against the reverse-call oracles. -/
def getProfileFromAddress (formats : String → Option CoinFormat)
    (address : JStr) (o : Option RecOptions) (lookup : NameLookup)
    (domains : List ResolverResponse) (chain : List RespItem)
    (revName : JStr) (revData : List RespItem) :
    Except JSError AddrProfile :=
  if shortcutCond o then
    if !lookup.matched then
      .ok ⟨.obj lookup, none, false⟩
    else do
      let wanted ← graphFetch (o.getD fullDefault) domains
      let r ← getDataForName formats wanted chain
      pure ⟨.strv lookup.name, some r.records, true⟩
  else do
    let r ← getDataForAddress formats address revName (o.getD fullDefault)
      revData
    pure ⟨.strv r.name, r.records, r.matched⟩

/-- Result of the top-level entry point: a name-path or address-path result. -/
inductive ProfileResult where
  | forName (d : NameData)
  | forAddress (d : AddrProfile)
deriving DecidableEq

/-- The default export, lines 348-358: dispatch on
`nameOrAddress.includes('.')` to the name path or the address path. -/
def getProfile (formats : String → Option CoinFormat) (nameOrAddress : JStr)
    (o : Option RecOptions) (lookup : NameLookup)
    (domains : List ResolverResponse) (chain : List RespItem)
    (revName : JStr) (revData : List RespItem) :
    Except JSError ProfileResult :=
  if nameOrAddress.contains '.' then
    (getProfileFromName formats o domains chain).map .forName
  else
    (getProfileFromAddress formats nameOrAddress o lookup domains chain
      revName revData).map .forAddress

/-! ## Helper lemmas -/

theorem nibbleChar_toLower (n : Nat) :
    Char.toLower (nibbleChar n) = nibbleChar n := by
  unfold nibbleChar
  split <;> decide

theorem jsToLower_hexOf (bs : Bytes) : jsToLower (hexOf bs) = hexOf bs := by
  unfold jsToLower hexOf
  simp only [List.map_cons]
  refine congrArg (fun t => _ :: _ :: t) ?_
  induction bs with
  | nil => rfl
  | cons b bs ih =>
    simp only [List.flatMap_cons, List.map_append, ih, byteHex,
      List.map_cons, List.map_nil, nibbleChar_toLower]

/-- Dropping a `procItem`-rejected pair anywhere in aligned lists leaves the
record sequence unchanged. -/
theorem recordsAux_drop_middle (formats : String → Option CoinFormat)
    (c : CallItem) (item : RespItem)
    (h : procItem formats c item = none) :
    ∀ (d₁ : List RespItem) (c₁ : List CallItem) (d₂ : List RespItem)
      (c₂ : List CallItem), d₁.length = c₁.length →
      recordsAux formats (d₁ ++ item :: d₂) (c₁ ++ c :: c₂)
        = recordsAux formats (d₁ ++ d₂) (c₁ ++ c₂) := by
  intro d₁
  induction d₁ with
  | nil =>
    intro c₁ d₂ c₂ hl
    have hc : c₁ = [] := List.eq_nil_of_length_eq_zero hl.symm
    subst hc
    simp only [List.nil_append, recordsAux, h]
    cases recordsAux formats d₂ c₂ <;> rfl
  | cons a as ih =>
    intro c₁ d₂ c₂ hl
    cases c₁ with
    | nil => simp at hl
    | cons b bs =>
      have hl' : as.length = bs.length := by
        simpa using hl
      simp only [List.cons_append, recordsAux, List.append_eq,
        ih bs d₂ c₂ hl']

/-- C8 (amended): the decode/format pipeline performs no count check. A
response not longer than the call list is processed without any error — a
strictly shorter one silently yields a truncated record sequence — while a
response longer than the call list fails only with the Formatter's thrown
`TypeError` (indexing a missing descriptor), never a dedicated decode
error. -/
theorem c8_no_count_check (formats : String → Option CoinFormat)
    (data : List RespItem) (calls : List CallItem) :
    (data.length ≤ calls.length →
      ∃ l, recordsAux formats data calls = .ok l ∧ l.length ≤ data.length)
    ∧ (calls.length < data.length →
      recordsAux formats data calls = .error .typeError) := by
  induction data generalizing calls with
  | nil =>
    refine ⟨fun _ => ⟨[], rfl, Nat.le_refl 0⟩, fun h => absurd h (by simp)⟩
  | cons item ds ih =>
    cases calls with
    | nil =>
      refine ⟨fun h => absurd h (by simp), fun _ => rfl⟩
    | cons c cs =>
      constructor
      · intro h
        have h' : ds.length ≤ cs.length := by simpa using h
        obtain ⟨l, hl, hlen⟩ := (ih cs).1 h'
        simp only [recordsAux, hl]
        cases hp : procItem formats c item with
        | some r =>
          exact ⟨r :: l, rfl, by simpa using hlen⟩
        | none =>
          exact ⟨l, rfl, Nat.le_succ_of_le hlen⟩
      · intro h
        have h' : cs.length < ds.length := by simpa using h
        simp only [recordsAux, (ih cs).2 h']
        rfl

/-! ## Claims -/

/-- C1: the source's guard `if (!calls.filter((x) => x.key === '60'))`
negates the truthiness of an array, which is always truthy, so the
guaranteed coin-type-"60" descriptor is never appended: for the request
`{ texts: ["avatar"] }` both builders yield a call list with no "60"
descriptor at all, contradicting the claimed invariant. -/
theorem c1_sixty_never_appended :
    buildCallsForName ⟨.undef, .val ["avatar"], .undef⟩
      = .ok [⟨"avatar", .text⟩]
    ∧ buildCallsForAddress ⟨.undef, .val ["avatar"], .undef⟩
      = .ok [⟨"avatar", .text⟩]
    ∧ ([(⟨"avatar", .text⟩ : CallItem)].filter fun x => x.key == "60") = []
    := by
  refine ⟨by decide, by decide, by decide⟩

/-- C3: because the "60" descriptor is never appended (C1), a forward
resolution that does not explicitly request coin type "60" has
`calls.findIndex((x) => x.key === '60') = -1`, so the address extraction
ABI-decodes `recordData[-1]` (`undefined`) and throws instead of returning
a primary address: evaluated at `{ texts: ["avatar"] }` with a well-formed
one-slot response. -/
theorem c3_address_extraction_throws :
    getDataForName (fun _ => none) ⟨.undef, .val ["avatar"], .undef⟩
      [⟨[1], "x"⟩] = .error .typeError
    ∧ (buildCallsForName ⟨.undef, .val ["avatar"], .undef⟩).map
        (fun calls => calls.findIdx? fun x => x.key == "60")
      = .ok none := by
  refine ⟨by decide, by decide⟩

/-- C10: `graphFetch` destructures the query result as
`domains: [{ resolver }]`; when the index returns no domain entry for the
name, the destructuring throws, so the whole shortcut-path resolution fails
with a runtime error rather than returning a result or falling back to the
direct on-chain path. -/
theorem c10_empty_domains_throws (formats : String → Option CoinFormat)
    (o : Option RecOptions) (chain : List RespItem)
    (h : shortcutCond o = true) :
    graphFetch (o.getD fullDefault) [] = .error .typeError
    ∧ getProfileFromName formats o [] chain = .error .typeError := by
  constructor
  · rfl
  · simp only [getProfileFromName, h, if_true]
    rfl

/-- Witness for C10 at a concrete input. -/
theorem c10_empty_domains_throws_witness :
    shortcutCond none = true
    ∧ (graphFetch ((none : Option RecOptions).getD fullDefault) []
        = .error .typeError
      ∧ getProfileFromName (fun _ => none) none [] [] = .error .typeError) :=
  ⟨rfl, c10_empty_domains_throws (fun _ => none) none [] rfl⟩

/-- C4: an "unset" slot — a text slot whose decoded string is empty, or an
addr/contenthash slot whose decoded bytes are all zero — is mapped to `null`
by the per-item step and contributes nothing to the formatted output:
removing such a slot (and its descriptor) anywhere in the aligned inputs
leaves `formatRecords` unchanged, so no output record ever comes from it. -/
theorem c4_unset_records_dropped (formats : String → Option CoinFormat)
    (o : RecOptions) (c : CallItem) (item : RespItem)
    (h : (c.type = CallType.text ∧ item.str = "")
      ∨ ((c.type = CallType.addr ∨ c.type = CallType.contenthash)
        ∧ hexStripZerosIsEmpty item.bytes = true))
    (d₁ d₂ : List RespItem) (c₁ c₂ : List CallItem)
    (hl : d₁.length = c₁.length) :
    procItem formats c item = none
    ∧ formatRecords formats (d₁ ++ item :: d₂) (c₁ ++ c :: c₂) o
      = formatRecords formats (d₁ ++ d₂) (c₁ ++ c₂) o := by
  have hnone : procItem formats c item = none := by
    rcases h with ⟨ht, hs⟩ | ⟨htype, hz⟩
    · unfold procItem
      rw [ht]
      simp [hs]
    · unfold procItem
      rcases htype with h1 | h1 <;> rw [h1] <;> simp [hz]
  refine ⟨hnone, ?_⟩
  unfold formatRecords
  rw [recordsAux_drop_middle formats c item hnone d₁ c₁ d₂ c₂ hl]

/-- Witness for C4: an all-zero addr slot in the middle of a batch is
dropped and changes nothing. -/
theorem c4_unset_records_dropped_witness :
    procItem (fun _ => none) ⟨"60", .addr⟩ ⟨[0, 0], ""⟩ = none
    ∧ formatRecords (fun _ => none) ([⟨[5], "a"⟩] ++ ⟨[0, 0], ""⟩ :: [])
        ([⟨"a", .text⟩] ++ ⟨"60", .addr⟩ :: [])
        ⟨.undef, .val ["a"], .val ["60"]⟩
      = formatRecords (fun _ => none) ([⟨[5], "a"⟩] ++ [])
        ([⟨"a", .text⟩] ++ []) ⟨.undef, .val ["a"], .val ["60"]⟩ :=
  c4_unset_records_dropped (fun _ => none) ⟨.undef, .val ["a"], .val ["60"]⟩
    ⟨"60", .addr⟩ ⟨[0, 0], ""⟩ (Or.inr ⟨Or.inl rfl, by decide⟩)
    [⟨[5], "a"⟩] [] [⟨"a", .text⟩] [] rfl

/-- C5: for an addr slot with non-zero decoded bytes, a coin type with no
registered codec is silently dropped (the per-item step yields `null`, and
removing the slot leaves `formatRecords` unchanged and successful), while a
registered codec yields a record carrying the coin's canonical name and the
codec-formatted address string. -/
theorem c5_addr_codec_lookup (formats : String → Option CoinFormat)
    (fmt : CoinFormat) (c : CallItem) (item : RespItem)
    (haddr : c.type = CallType.addr)
    (hnz : hexStripZerosIsEmpty item.bytes = false) :
    (formats c.key = none →
      procItem formats c item = none
      ∧ ∀ (o : RecOptions) (d₁ d₂ : List RespItem) (c₁ c₂ : List CallItem),
          d₁.length = c₁.length →
          formatRecords formats (d₁ ++ item :: d₂) (c₁ ++ c :: c₂) o
            = formatRecords formats (d₁ ++ d₂) (c₁ ++ c₂) o)
    ∧ (formats c.key = some fmt →
      procItem formats c item
        = some ⟨c.key, .addr, some fmt.name, .str (fmt.encoder item.bytes)⟩)
    := by
  constructor
  · intro hnofmt
    have hnone : procItem formats c item = none := by
      unfold procItem
      rw [haddr]
      simp [hnz, hnofmt]
    refine ⟨hnone, fun o d₁ d₂ c₁ c₂ hl => ?_⟩
    unfold formatRecords
    rw [recordsAux_drop_middle formats c item hnone d₁ c₁ d₂ c₂ hl]
  · intro hfmt
    unfold procItem
    rw [haddr]
    simp [hnz, hfmt]

/-- Witness for C5: with an empty codec table, a non-zero addr slot for coin
"99" is dropped; the first conjunct is exercised. -/
theorem c5_addr_codec_lookup_witness :
    procItem (fun _ => none) ⟨"99", .addr⟩ ⟨[7], ""⟩ = none
    ∧ formatRecords (fun _ => none) ([] ++ ⟨[7], ""⟩ :: [])
        ([] ++ ⟨"99", .addr⟩ :: []) ⟨.undef, .undef, .val ["99"]⟩
      = formatRecords (fun _ => none) ([] ++ []) ([] ++ [])
        ⟨.undef, .undef, .val ["99"]⟩ :=
  have h := (c5_addr_codec_lookup (fun _ => none) ⟨"ETH", fun _ => "e"⟩
    ⟨"99", .addr⟩ ⟨[7], ""⟩ rfl (by decide)).1 rfl
  ⟨h.1, h.2 ⟨.undef, .undef, .val ["99"]⟩ [] [] [] [] rfl⟩

/-- C2: for a reverse resolution whose call list has a coin-type-"60"
descriptor at position `i` and whose aligned responses cover that slot, the
returned `match` field is true exactly when the decoded primary address
equals the queried address case-insensitively (the decoded hex rendering is
lowercase, so the source's comparison against `address.toLowerCase()` is the
case-insensitive equality); whenever `match` is false the result is exactly
`{ name, records: null, match: false }`, produced before the formatter. -/
theorem c2_reverse_match (formats : String → Option CoinFormat)
    (address revName : JStr) (o : RecOptions) (revData : List RespItem)
    (calls : List CallItem) (i : Nat) (item : RespItem)
    (hc : buildCallsForAddress o = .ok calls)
    (hi : (calls.findIdx? fun x => x.key == "60") = some i)
    (hit : revData.get? i = some item) :
    (∀ res, getDataForAddress formats address revName o revData = .ok res →
      (res.matched = true ↔ jsToLower (hexOf item.bytes) = jsToLower address))
    ∧ (∀ res, getDataForAddress formats address revName o revData = .ok res →
        res.matched = false → res.records = none)
    ∧ (jsToLower (hexOf item.bytes) ≠ jsToLower address →
      getDataForAddress formats address revName o revData
        = .ok ⟨revName, none, false⟩) := by
  have key : getDataForAddress formats address revName o revData
      = if hexOf item.bytes ≠ jsToLower address then
          Except.ok ⟨revName, none, false⟩
        else
          (formatRecords formats revData calls o).bind
            fun fr => Except.ok ⟨revName, some fr, true⟩ := by
    unfold getDataForAddress
    rw [hc]
    simp only [bind, Except.bind, hi, hit, pure, Except.pure]
  by_cases hcond : hexOf item.bytes = jsToLower address
  · have hlow : jsToLower (hexOf item.bytes) = jsToLower address := by
      rw [jsToLower_hexOf, hcond]
    rw [key, if_neg (not_not_intro hcond)]
    refine ⟨?_, ?_, ?_⟩
    · intro res hres
      cases hfr : formatRecords formats revData calls o with
      | error e =>
        rw [hfr] at hres
        exact absurd hres (by simp [Except.bind])
      | ok fr =>
        rw [hfr] at hres
        simp only [Except.bind] at hres
        cases hres
        exact ⟨fun _ => hlow, fun _ => rfl⟩
    · intro res hres hm
      cases hfr : formatRecords formats revData calls o with
      | error e =>
        rw [hfr] at hres
        exact absurd hres (by simp [Except.bind])
      | ok fr =>
        rw [hfr] at hres
        simp only [Except.bind] at hres
        cases hres
        simp at hm
    · intro hne
      exact absurd hlow hne
  · have hlow : jsToLower (hexOf item.bytes) ≠ jsToLower address := by
      rw [jsToLower_hexOf]
      exact hcond
    rw [key, if_pos hcond]
    refine ⟨?_, ?_, ?_⟩
    · intro res hres
      cases hres
      exact ⟨fun h => absurd h Bool.false_ne_true, fun h => absurd h hlow⟩
    · intro res hres _
      cases hres
      rfl
    · intro _
      rfl

/-- Witness for C2: querying the uppercase address `0X` reverse-matches the
decoded empty byte string (rendered `0x`), exercising the case-insensitive
comparison. -/
theorem c2_reverse_match_witness :
    getDataForAddress (fun _ => none) ['0', 'X'] ['n']
      ⟨.undef, .undef, .val ["60"]⟩ [⟨[], "x"⟩]
      = .ok ⟨['n'], some ⟨none, none, some []⟩, true⟩
    ∧ jsToLower (hexOf ([] : Bytes)) = jsToLower ['0', 'X'] := by
  have h := c2_reverse_match (fun _ => none) ['0', 'X'] ['n']
    ⟨.undef, .undef, .val ["60"]⟩ [⟨[], "x"⟩] [⟨"60", .addr⟩] 0 ⟨[], "x"⟩
    (by decide) (by decide) (by decide)
  refine ⟨by decide, ?_⟩
  exact (h.1 ⟨['n'], some ⟨none, none, some []⟩, true⟩ (by decide)).mp rfl

/-- C6: on the index-shortcut path, each boolean-`true` field of the wanted
record set is overwritten in place with the index response's value for that
key (so the list fields are never the literal `true` afterwards), and the
forward resolver is then invoked with exactly that concretized record set:
the shortcut's result is literally `getDataForName` on the concretized
options over the on-chain response oracle, so final record values come from
the on-chain call. -/
theorem c6_index_shortcut_concretizes (formats : String → Option CoinFormat)
    (o : RecOptions) (resp : ResolverResponse) (rest : List ResolverResponse)
    (chain : List RespItem) (h : shortcutCond (some o) = true) :
    ∃ wanted, graphFetch o (resp :: rest) = .ok wanted
      ∧ (o.texts = .boolv true → wanted.texts = .val resp.texts)
      ∧ (o.coinTypes = .boolv true → wanted.coinTypes = .val resp.coinTypes)
      ∧ (o.contentHash = .boolv true →
          wanted.contentHash = (match resp.contentHash with
            | some s => JSVal.val s
            | none => JSVal.nullv))
      ∧ wanted.texts ≠ .boolv true
      ∧ wanted.coinTypes ≠ .boolv true
      ∧ getProfileFromName formats (some o) (resp :: rest) chain
          = getDataForName formats wanted chain := by
  refine ⟨_, rfl, ?_, ?_, ?_, ?_, ?_, ?_⟩
  · intro ht
    show graphField o.texts resp.texts = _
    rw [ht]
    rfl
  · intro hct
    show graphField o.coinTypes resp.coinTypes = _
    rw [hct]
    rfl
  · intro hch
    show (match o.contentHash with
      | .boolv true =>
        (match resp.contentHash with
         | some s => JSVal.val s
         | none => JSVal.nullv)
      | x => x) = _
    rw [hch]
  · show graphField o.texts resp.texts ≠ _
    rcases ht : o.texts with _ | _ | b | l
    · simp [graphField]
    · simp [graphField]
    · cases b <;> simp [graphField]
    · simp [graphField]
  · show graphField o.coinTypes resp.coinTypes ≠ _
    rcases ht : o.coinTypes with _ | _ | b | l
    · simp [graphField]
    · simp [graphField]
    · cases b <;> simp [graphField]
    · simp [graphField]
  · simp only [getProfileFromName, h, if_true, Option.getD]
    have hg : graphFetch o (resp :: rest) = .ok
        ⟨(match o.contentHash with
          | .boolv true =>
            (match resp.contentHash with
             | some s => JSVal.val s
             | none => JSVal.nullv)
          | x => x),
         graphField o.texts resp.texts,
         graphField o.coinTypes resp.coinTypes⟩ := rfl
    rw [hg]
    simp only [bind, Except.bind]
    cases hr : getDataForName formats
        ⟨(match o.contentHash with
          | .boolv true =>
            (match resp.contentHash with
             | some s => JSVal.val s
             | none => JSVal.nullv)
          | x => x),
         graphField o.texts resp.texts,
         graphField o.coinTypes resp.coinTypes⟩ chain with
    | error e => rfl
    | ok r => rfl

/-- Witness for C6 at an all-`true` request and a concrete index response. -/
theorem c6_index_shortcut_concretizes_witness :
    shortcutCond (some ⟨.boolv true, .boolv true, .boolv true⟩) = true
    ∧ ∃ wanted,
      graphFetch ⟨.boolv true, .boolv true, .boolv true⟩
          [⟨some [1], ["a"], ["60", "0"]⟩] = .ok wanted
      ∧ ((⟨.boolv true, .boolv true, .boolv true⟩ : RecOptions).texts
            = .boolv true → wanted.texts = .val ["a"])
      ∧ ((⟨.boolv true, .boolv true, .boolv true⟩ : RecOptions).coinTypes
            = .boolv true → wanted.coinTypes = .val ["60", "0"])
      ∧ ((⟨.boolv true, .boolv true, .boolv true⟩ : RecOptions).contentHash
            = .boolv true →
          wanted.contentHash
            = (match (⟨some [1], ["a"], ["60", "0"]⟩ : ResolverResponse).contentHash with
              | some s => JSVal.val s
              | none => JSVal.nullv))
      ∧ wanted.texts ≠ .boolv true
      ∧ wanted.coinTypes ≠ .boolv true
      ∧ getProfileFromName (fun _ => none)
          (some ⟨.boolv true, .boolv true, .boolv true⟩)
          [⟨some [1], ["a"], ["60", "0"]⟩] []
          = getDataForName (fun _ => none) wanted [] :=
  ⟨by decide,
    c6_index_shortcut_concretizes (fun _ => none)
      ⟨.boolv true, .boolv true, .boolv true⟩ ⟨some [1], ["a"], ["60", "0"]⟩
      [] [] (by decide)⟩

/-- C7: when `contentHash` is requested as a literal string, no contenthash
call descriptor is built on either path (the builders only push one for a
boolean `true`), and the output `contentHash` bucket is `null` when the
literal's byte value is all zero and the literal itself otherwise. -/
theorem c7_contenthash_literal (s : Bytes) (o : RecOptions)
    (hch : o.contentHash = .val s) :
    (∀ calls, buildCallsForName o = .ok calls →
      ∀ c ∈ calls, c.type ≠ CallType.contenthash)
    ∧ (∀ calls, buildCallsForAddress o = .ok calls →
      ∀ c ∈ calls, c.type ≠ CallType.contenthash)
    ∧ (∀ (formats : String → Option CoinFormat) (data : List RespItem)
        (calls : List CallItem) (fr : FormattedResponse),
        formatRecords formats data calls o = .ok fr →
        fr.contentHash
          = (if hexStripZerosIsEmpty s then some none
              else some (some (.bytes s)))) := by
  refine ⟨?_, ?_, ?_⟩
  · intro calls hcalls c hcmem
    unfold buildCallsForName at hcalls
    rw [hch] at hcalls
    rcases hT : o.texts with _ | _ | bT | ts <;> rw [hT] at hcalls
    all_goals try cases bT
    all_goals rcases hC : o.coinTypes with _ | _ | bC | cs <;>
      rw [hC] at hcalls
    all_goals try cases bC
    all_goals simp only [bind, Except.bind, pure, Except.pure, jsArrayTruthy,
      Bool.not_true, Bool.false_eq_true, if_false, List.append_nil,
      List.nil_append] at hcalls
    all_goals cases hcalls
    all_goals
      first
      | exact absurd hcmem (List.not_mem_nil c)
      | (rcases List.mem_append.mp hcmem with hm | hm <;>
          rcases List.mem_map.mp hm with ⟨k, _, hk⟩ <;> rw [← hk] <;> simp)
      | (rcases List.mem_map.mp hcmem with ⟨k, _, hk⟩
         rw [← hk]
         simp)
  · intro calls hcalls c hcmem
    unfold buildCallsForAddress at hcalls
    rw [hch] at hcalls
    rcases hT : o.texts with _ | _ | bT | ts <;> rw [hT] at hcalls
    all_goals try cases bT
    all_goals rcases hC : o.coinTypes with _ | _ | bC | cs <;>
      rw [hC] at hcalls
    all_goals try cases bC
    all_goals simp only [bind, Except.bind, pure, Except.pure, jsArrayTruthy,
      Bool.not_true, Bool.false_eq_true, if_false, List.append_nil,
      List.nil_append] at hcalls
    all_goals cases hcalls
    all_goals
      first
      | exact absurd hcmem (List.not_mem_nil c)
      | (rcases List.mem_append.mp hcmem with hm | hm <;>
          rcases List.mem_map.mp hm with ⟨k, _, hk⟩ <;> rw [← hk] <;> simp)
      | (rcases List.mem_map.mp hcmem with ⟨k, _, hk⟩
         rw [← hk]
         simp)
  · intro formats data calls fr hfr
    unfold formatRecords at hfr
    cases hr : recordsAux formats data calls with
    | error e =>
      rw [hr] at hfr
      exact absurd hfr (by simp [bind, Except.bind])
    | ok l =>
      rw [hr] at hfr
      simp only [bind, Except.bind, pure, Except.pure, hch] at hfr
      cases hfr
      rfl

/-- Witness for C7: an all-zero 2-byte literal yields a `null` bucket with
no calls at all. -/
theorem c7_contenthash_literal_witness :
    formatRecords (fun _ => none) [] [] ⟨.val [0, 0], .undef, .undef⟩
      = .ok ⟨some none, none, none⟩
    ∧ (⟨some none, none, none⟩ : FormattedResponse).contentHash
      = (if hexStripZerosIsEmpty [0, 0] then some none
          else some (some (.bytes [0, 0]))) := by
  refine ⟨by decide, ?_⟩
  exact (c7_contenthash_literal [0, 0] ⟨.val [0, 0], .undef, .undef⟩ rfl).2.2
    (fun _ => none) [] [] ⟨some none, none, none⟩ (by decide)

/-- C8 (counterexample): a request building two call descriptors processed
against a one-item response does not fail at all — the claim's DecodeError
on count mismatch does not exist in the code. The result is a success whose
`coinTypes` bucket silently lost the uncovered slot. -/
theorem c8_mismatch_not_an_error :
    buildCallsForName ⟨.undef, .undef, .val ["60", "0"]⟩
      = .ok [⟨"60", .addr⟩, ⟨"0", .addr⟩]
    ∧ getDataForName (fun _ => none) ⟨.undef, .undef, .val ["60", "0"]⟩
        [⟨[1], ""⟩]
      = .ok ⟨[1], ⟨none, none, some []⟩⟩ :=
  ⟨by decide, by decide⟩

/-- Witness for C8's amended theorem: one response item against two call
descriptors decodes successfully to a truncated record list. -/
theorem c8_no_count_check_witness :
    ∃ l, recordsAux (fun _ => none) [⟨[1], ""⟩]
        [⟨"60", .addr⟩, ⟨"0", .addr⟩] = .ok l
      ∧ l.length ≤ [(⟨[1], ""⟩ : RespItem)].length :=
  (c8_no_count_check (fun _ => none) [⟨[1], ""⟩]
    [⟨"60", .addr⟩, ⟨"0", .addr⟩]).1 (by decide)

/-- C9: the orchestrator dispatches on whether the input contains the
separator `.` — name path if so, address path otherwise — and on the
address path's default/shortcut branch, an unbound name (`match: false`
from the external reverse name lookup) returns
`{ name, records: null, match: false }` at once: the result is this
constant for every index-query and on-chain oracle, so neither is
consulted. -/
theorem c9_dispatch (formats : String → Option CoinFormat) (s : JStr)
    (o : Option RecOptions) (lookup : NameLookup)
    (domains : List ResolverResponse) (chain : List RespItem)
    (revName : JStr) (revData : List RespItem) :
    (s.contains '.' = true →
      getProfile formats s o lookup domains chain revName revData
        = (getProfileFromName formats o domains chain).map .forName)
    ∧ (s.contains '.' = false →
      getProfile formats s o lookup domains chain revName revData
        = (getProfileFromAddress formats s o lookup domains chain revName
            revData).map .forAddress)
    ∧ (shortcutCond o = true → lookup.matched = false →
      getProfileFromAddress formats s o lookup domains chain revName revData
        = .ok ⟨.obj lookup, none, false⟩) := by
  refine ⟨?_, ?_, ?_⟩
  · intro hdot
    simp only [getProfile, hdot, if_true]
  · intro hdot
    simp only [getProfile, hdot, Bool.false_eq_true, if_false]
  · intro hsc hm
    simp only [getProfileFromAddress, hsc, if_true, hm, Bool.not_false,
      if_true]

/-- Witness for C9: a dotted input takes the name path; an address with no
bound name returns the no-match result immediately. -/
theorem c9_dispatch_witness :
    getProfile (fun _ => none) ['a', '.', 'e'] none ⟨[], false⟩ [] [] [] []
      = (getProfileFromName (fun _ => none) none [] []).map
          ProfileResult.forName
    ∧ getProfileFromAddress (fun _ => none) ['b'] none ⟨[], false⟩ [] [] [] []
      = .ok ⟨.obj ⟨[], false⟩, none, false⟩ :=
  ⟨(c9_dispatch (fun _ => none) ['a', '.', 'e'] none ⟨[], false⟩
      [] [] [] []).1 (by decide),
   (c9_dispatch (fun _ => none) ['b'] none ⟨[], false⟩ [] [] [] []).2.2
      (by decide) (by decide)⟩
